import Mathlib

/-!
Verification of the paper-trading order simulator (`trading_simulator.py`).

The simulator keeps a cash balance, a symbol-keyed map of open positions, an
append-only order history and an append-only trade history.  Money and
quantities are modelled by `ℚ` (the source works with Python floats; all the
properties below concern the exact arithmetic the formulas denote).  The
positions dictionary is modelled by an insertion-ordered association list,
which is how Python dictionaries behave.  Timestamp fields (`created_at`,
`executed_at`) are elided: no property below mentions them.  A Python
exception (`ValueError` in `create_order`, the `TypeError` raised when a
trigger comparison meets a `None` price) is modelled by `Except.error`.
-/

namespace Binance

/-- Order types (`OrderType` enum in the source). -/
inductive OrderType where
  | market
  | limit
  | stop_loss
  | take_profit
deriving DecidableEq, Repr

/-- Order sides (`OrderSide` enum in the source). -/
inductive OrderSide where
  | buy
  | sell
deriving DecidableEq, Repr

/-- Order statuses (`OrderStatus` enum in the source). -/
inductive OrderStatus where
  | pending
  | executed
  | cancelled
  | expired
deriving DecidableEq, Repr

/-- An open position: `{quantity, avg_price, invested}` in the source. -/
structure Position where
  quantity : ℚ
  avg_price : ℚ
  invested : ℚ
deriving DecidableEq, Repr

/-- An order record, as built by `create_order`. -/
structure Order where
  id : Nat
  symbol : String
  type : OrderType
  side : OrderSide
  quantity : ℚ
  price : Option ℚ
  stop_price : Option ℚ
  status : OrderStatus
  executed_price : Option ℚ
  cancel_reason : Option String
deriving DecidableEq, Repr

/-- A trade record, appended on every successful Sell execution. -/
structure Trade where
  id : Nat
  symbol : String
  side : OrderSide
  quantity : ℚ
  entry_price : ℚ
  exit_price : ℚ
  pnl : ℚ
  pnl_percentage : ℚ
deriving DecidableEq, Repr

/-- The ledger state of `TradingSimulator`. -/
structure TradingSimulator where
  initial_balance : ℚ
  balance : ℚ
  positions : List (String × Position)
  orders : List Order
  trades : List Trade
deriving DecidableEq, Repr

/-- `TradingSimulator.__init__`. -/
def initSimulator (initial_balance : ℚ) : TradingSimulator :=
  { initial_balance := initial_balance
    balance := initial_balance
    positions := []
    orders := []
    trades := [] }

/-- Dictionary lookup `self.positions[symbol]` / `symbol in self.positions`. -/
def lookupPos : List (String × Position) → String → Option Position
  | [], _ => none
  | e :: rest, k => if e.1 = k then some e.2 else lookupPos rest k

/-- Dictionary write `self.positions[symbol] = ...`: update the existing
entry in place, or append a new entry (Python dicts are insertion ordered). -/
def upsertPos : List (String × Position) → String → Position → List (String × Position)
  | [], k, v => [(k, v)]
  | e :: rest, k, v => if e.1 = k then (k, v) :: rest else e :: upsertPos rest k v

/-- Dictionary deletion `del self.positions[symbol]`. -/
def removePos : List (String × Position) → String → List (String × Position)
  | [], _ => []
  | e :: rest, k => if e.1 = k then rest else e :: removePos rest k

/-- Result of `_execute_order`: the Python method returns `(success, message)`
and mutates both the simulator and the order dict; here the mutated values are
returned (`state`, `order` are unchanged on failure). -/
structure ExecResult where
  success : Bool
  message : String
  state : TradingSimulator
  order : Order
deriving DecidableEq, Repr

/-- `TradingSimulator._execute_order`. -/
def executeOrder (s : TradingSimulator) (o : Order) (execution_price : ℚ) : ExecResult :=
  let order_cost := o.quantity * execution_price
  match o.side with
  | OrderSide.buy =>
    if s.balance < order_cost then
      { success := false, message := "Saldo insuficiente", state := s, order := o }
    else
      let pos0 := (lookupPos s.positions o.symbol).getD
        { quantity := 0, avg_price := 0, invested := 0 }
      let total_invested := pos0.invested + order_cost
      let total_quantity := pos0.quantity + o.quantity
      { success := true
        message := "Ordem executada com sucesso"
        state :=
          { s with
            balance := s.balance - order_cost
            positions := upsertPos s.positions o.symbol
              { quantity := total_quantity
                avg_price := total_invested / total_quantity
                invested := total_invested } }
        order := { o with status := OrderStatus.executed, executed_price := some execution_price } }
  | OrderSide.sell =>
    match lookupPos s.positions o.symbol with
    | none =>
      { success := false, message := "Posicao nao encontrada", state := s, order := o }
    | some pos =>
      if pos.quantity < o.quantity then
        { success := false, message := "Quantidade insuficiente", state := s, order := o }
      else
        let sale_value := o.quantity * execution_price
        let cost_basis := o.quantity * pos.avg_price
        let pnl := sale_value - cost_basis
        let newQty := pos.quantity - o.quantity
        { success := true
          message := "Ordem executada com sucesso"
          state :=
            { s with
              balance := s.balance + sale_value
              positions :=
                if newQty = 0 then removePos s.positions o.symbol
                else upsertPos s.positions o.symbol
                  { quantity := newQty
                    avg_price := pos.avg_price
                    invested := pos.invested - cost_basis }
              trades := s.trades ++
                [{ id := s.trades.length + 1
                   symbol := o.symbol
                   side := OrderSide.sell
                   quantity := o.quantity
                   entry_price := pos.avg_price
                   exit_price := execution_price
                   pnl := pnl
                   pnl_percentage := pnl / cost_basis * 100 }] }
          order := { o with status := OrderStatus.executed, executed_price := some execution_price } }

/-- The fresh order dict built at the top of `create_order`. -/
def newOrder (s : TradingSimulator) (symbol : String) (order_type : OrderType)
    (side : OrderSide) (quantity : ℚ) (price stop_price : Option ℚ) : Order :=
  { id := s.orders.length + 1
    symbol := symbol
    type := order_type
    side := side
    quantity := quantity
    price := price
    stop_price := stop_price
    status := OrderStatus.pending
    executed_price := none
    cancel_reason := none }

/-- `TradingSimulator.create_order`.  A raised `ValueError` is `Except.error`. -/
def create_order (s : TradingSimulator) (symbol : String) (order_type : OrderType)
    (side : OrderSide) (quantity : ℚ) (price stop_price current_price : Option ℚ) :
    Except String (TradingSimulator × Order) :=
  let order := newOrder s symbol order_type side quantity price stop_price
  match order_type with
  | OrderType.market =>
    match current_price with
    | none => Except.error "current_price e obrigatorio para market orders"
    | some cp =>
      let r := executeOrder s order cp
      let finalOrder :=
        if r.success then r.order
        else { order with status := OrderStatus.cancelled, cancel_reason := some r.message }
      Except.ok ({ r.state with orders := r.state.orders ++ [finalOrder] }, finalOrder)
  | _ => Except.ok ({ s with orders := s.orders ++ [order] }, order)

/-- The trigger predicate evaluated by `process_pending_orders` on a pending
order whose symbol has a quote.  `none` models the `TypeError` Python raises
when the stored limit/stop price is `None` and gets compared against a float. -/
def shouldExecute (o : Order) (current_price : ℚ) : Option Bool :=
  match o.type with
  | OrderType.market => some false
  | OrderType.limit =>
    match o.price with
    | none => none
    | some target =>
      if o.side = OrderSide.buy ∧ current_price ≤ target then some true
      else if o.side = OrderSide.sell ∧ target ≤ current_price then some true
      else some false
  | OrderType.stop_loss =>
    match o.stop_price with
    | none => none
    | some sp => some (decide (current_price ≤ sp))
  | OrderType.take_profit =>
    match o.stop_price with
    | none => none
    | some sp => some (decide (sp ≤ current_price))

/-- The loop body of `process_pending_orders`: walks the order list in
creation order, threading the ledger state; returns the rewritten order list,
the executed orders, and the final state. -/
def processPendingAux (prices : String → Option ℚ) :
    TradingSimulator → List Order →
      Except String (List Order × List Order × TradingSimulator)
  | s, [] => Except.ok ([], [], s)
  | s, o :: rest =>
    if o.status = OrderStatus.pending then
      match prices o.symbol with
      | none =>
        match processPendingAux prices s rest with
        | Except.error e => Except.error e
        | Except.ok (os, ex, s2) => Except.ok (o :: os, ex, s2)
      | some cp =>
        match shouldExecute o cp with
        | none => Except.error "TypeError: comparison with None"
        | some false =>
          match processPendingAux prices s rest with
          | Except.error e => Except.error e
          | Except.ok (os, ex, s2) => Except.ok (o :: os, ex, s2)
        | some true =>
          if (executeOrder s o cp).success then
            match processPendingAux prices (executeOrder s o cp).state rest with
            | Except.error e => Except.error e
            | Except.ok (os, ex, s2) =>
              Except.ok ((executeOrder s o cp).order :: os,
                (executeOrder s o cp).order :: ex, s2)
          else
            match processPendingAux prices (executeOrder s o cp).state rest with
            | Except.error e => Except.error e
            | Except.ok (os, ex, s2) =>
              Except.ok
                ({ o with
                    status := OrderStatus.cancelled
                    cancel_reason := some (executeOrder s o cp).message } :: os, ex, s2)
    else
      match processPendingAux prices s rest with
      | Except.error e => Except.error e
      | Except.ok (os, ex, s2) => Except.ok (o :: os, ex, s2)

/-- `TradingSimulator.process_pending_orders`. -/
def process_pending_orders (s : TradingSimulator) (prices : String → Option ℚ) :
    Except String (List Order × TradingSimulator) :=
  match processPendingAux prices s s.orders with
  | Except.error e => Except.error e
  | Except.ok (os, ex, s2) => Except.ok (ex, { s2 with orders := os })

/-- `TradingSimulator.cancel_order`: find the first pending order with the
given id, mark it cancelled; return whether one was found. -/
def cancelFirst : List Order → Nat → Option (List Order)
  | [], _ => none
  | o :: rest, oid =>
    if o.id = oid ∧ o.status = OrderStatus.pending then
      let o2 : Order :=
        { o with
          status := OrderStatus.cancelled
          cancel_reason := some "Cancelada pelo usuario" }
      some (o2 :: rest)
    else
      match cancelFirst rest oid with
      | none => none
      | some rest2 => some (o :: rest2)

/-- `TradingSimulator.cancel_order`. -/
def cancel_order (s : TradingSimulator) (oid : Nat) : Bool × TradingSimulator :=
  match cancelFirst s.orders oid with
  | none => (false, s)
  | some os => (true, { s with orders := os })

/-- The accumulation loop of `get_portfolio_value`: positions whose symbol has
no quote are skipped by the `if symbol in current_prices` guard. -/
def portfolioLoop (prices : String → Option ℚ) : ℚ → List (String × Position) → ℚ
  | total, [] => total
  | total, e :: rest =>
    match prices e.1 with
    | some p => portfolioLoop prices (total + e.2.quantity * p) rest
    | none => portfolioLoop prices total rest

/-- `TradingSimulator.get_portfolio_value`. -/
def get_portfolio_value (s : TradingSimulator) (prices : String → Option ℚ) : ℚ :=
  portfolioLoop prices s.balance s.positions

/-- The statistics record returned by `get_statistics`. -/
structure Statistics where
  total_trades : Nat
  winning_trades : Nat
  losing_trades : Nat
  win_rate : ℚ
  total_pnl : ℚ
  avg_win : ℚ
  avg_loss : ℚ
  best_trade : ℚ
  worst_trade : ℚ
deriving DecidableEq, Repr

/-- `TradingSimulator.get_statistics`. -/
def get_statistics (s : TradingSimulator) : Statistics :=
  if s.trades = [] then
    { total_trades := 0, winning_trades := 0, losing_trades := 0, win_rate := 0
      total_pnl := 0, avg_win := 0, avg_loss := 0, best_trade := 0, worst_trade := 0 }
  else
    let winning_trades := s.trades.filter (fun t => 0 < t.pnl)
    let losing_trades := s.trades.filter (fun t => t.pnl < 0)
    let pnls := s.trades.map Trade.pnl
    { total_trades := s.trades.length
      winning_trades := winning_trades.length
      losing_trades := losing_trades.length
      win_rate := ((winning_trades.length : ℚ) / (s.trades.length : ℚ)) * 100
      total_pnl := pnls.sum
      avg_win :=
        if winning_trades = [] then 0
        else (winning_trades.map Trade.pnl).sum / (winning_trades.length : ℚ)
      avg_loss :=
        if losing_trades = [] then 0
        else (losing_trades.map Trade.pnl).sum / (losing_trades.length : ℚ)
      best_trade := pnls.max?.getD 0
      worst_trade := pnls.min?.getD 0 }

/-- How a single position is valued by the source `get_portfolio_value`: a
position whose symbol has no quote is skipped, i.e. contributes `0`. -/
def positionContribution (prices : String → Option ℚ) (e : String × Position) : ℚ :=
  match prices e.1 with
  | some p => e.2.quantity * p
  | none => 0

/-- Modelled from the spec: the valuation rule the spec asserts for
`get_portfolio_value` — a position whose symbol is absent from the price
mapping "is valued at its average entry price" instead of being excluded.
Kept only to compare against the source definition. -/
def claimedContribution (prices : String → Option ℚ) (e : String × Position) : ℚ :=
  match prices e.1 with
  | some p => e.2.quantity * p
  | none => e.2.quantity * e.2.avg_price

/-- Modelled from the spec: portfolio value as the spec describes it
(cash balance plus `claimedContribution` of every position). -/
def get_portfolio_value_claimed (s : TradingSimulator) (prices : String → Option ℚ) : ℚ :=
  s.balance + (s.positions.map (claimedContribution prices)).sum

/-- The disposition `process_pending_orders` gives to one order: `o` is the
order before the call, `o2` the order at the same index afterwards, `ex` the
returned executed list. -/
def OrderOutcome (prices : String → Option ℚ) (ex : List Order) (o o2 : Order) : Prop :=
  (o.status ≠ OrderStatus.pending → o2 = o) ∧
  (o.status = OrderStatus.pending → prices o.symbol = none → o2 = o) ∧
  (∀ cp, o.status = OrderStatus.pending → prices o.symbol = some cp →
    shouldExecute o cp ≠ none ∧
    (shouldExecute o cp = some false → o2 = o) ∧
    (shouldExecute o cp = some true →
      (o2 = { o with status := OrderStatus.executed, executed_price := some cp } ∧ o2 ∈ ex) ∨
      (o2.status = OrderStatus.cancelled ∧ o2.cancel_reason ≠ none ∧
        o2.quantity = o.quantity)))

/-- Cost-basis consistency of the positions map: every entry satisfies
`invested = quantity × avg_price` with a strictly positive quantity and a
nonnegative cost basis. -/
def PosInv (s : TradingSimulator) : Prop :=
  ∀ e ∈ s.positions, e.2.invested = e.2.quantity * e.2.avg_price ∧
    0 < e.2.quantity ∧ 0 ≤ e.2.invested

/-- Every order ever recorded has a strictly positive quantity. -/
def OrdersQtyPos (s : TradingSimulator) : Prop :=
  ∀ o ∈ s.orders, 0 < o.quantity

/-- The position `_execute_order` starts a Buy from: the held position, or the
zero position the source inserts when the symbol is absent. -/
def currentPosition (s : TradingSimulator) (sym : String) : Position :=
  (lookupPos s.positions sym).getD { quantity := 0, avg_price := 0, invested := 0 }

/-- The denominator `total_quantity` of the average-price division in the Buy
branch of `_execute_order`: the held quantity (`0` when the symbol has no
position, as the source inserts a zero position first) plus the order
quantity. -/
def buyDenominator (s : TradingSimulator) (o : Order) : ℚ :=
  (currentPosition s o.symbol).quantity + o.quantity

/-- Ledger states reachable from a fresh simulator through the public
operations, under the precondition that every quantity and every price
supplied (limit price, stop price, market reference price, quote mapping) is
strictly positive; a call that raises is not a transition. -/
inductive Reachable : TradingSimulator → Prop where
  | init (b : ℚ) : Reachable (initSimulator b)
  | create (s : TradingSimulator) (symbol : String) (ot : OrderType) (side : OrderSide)
      (q : ℚ) (price sp cp : Option ℚ) (s2 : TradingSimulator) (o : Order)
      (hs : Reachable s) (hq : 0 < q)
      (hp : ∀ x, price = some x → 0 < x)
      (hsp : ∀ x, sp = some x → 0 < x)
      (hcp : ∀ x, cp = some x → 0 < x)
      (h : create_order s symbol ot side q price sp cp = Except.ok (s2, o)) :
      Reachable s2
  | process (s : TradingSimulator) (prices : String → Option ℚ)
      (ex : List Order) (s2 : TradingSimulator)
      (hs : Reachable s) (hp : ∀ sym x, prices sym = some x → 0 < x)
      (h : process_pending_orders s prices = Except.ok (ex, s2)) :
      Reachable s2
  | cancel (s : TradingSimulator) (oid : Nat) (hs : Reachable s) :
      Reachable (cancel_order s oid).2

/-! ### Association-list lemmas -/

theorem lookupPos_upsertPos_self (l : List (String × Position)) (k : String) (v : Position) :
    lookupPos (upsertPos l k v) k = some v := by
  induction l with
  | nil => simp [upsertPos, lookupPos]
  | cons e rest ih =>
    by_cases h : e.1 = k
    · simp [upsertPos, lookupPos, h]
    · simp [upsertPos, lookupPos, h, ih]

theorem lookupPos_mem {l : List (String × Position)} {k : String} {v : Position}
    (h : lookupPos l k = some v) : (k, v) ∈ l := by
  induction l with
  | nil => simp [lookupPos] at h
  | cons e rest ih =>
    by_cases he : e.1 = k
    · simp [lookupPos, he] at h
      subst h
      subst he
      exact List.mem_cons_self _ _
    · simp [lookupPos, he] at h
      right
      exact ih h

theorem mem_upsertPos {l : List (String × Position)} {k : String} {v : Position}
    {e : String × Position} (h : e ∈ upsertPos l k v) : e = (k, v) ∨ e ∈ l := by
  induction l with
  | nil => simpa [upsertPos] using h
  | cons e2 rest ih =>
    by_cases he : e2.1 = k
    · simp only [upsertPos, if_pos he, List.mem_cons] at h
      rcases h with h | h
      · exact Or.inl h
      · exact Or.inr (List.mem_cons_of_mem _ h)
    · simp only [upsertPos, if_neg he, List.mem_cons] at h
      rcases h with h | h
      · exact Or.inr (by simp [h])
      · rcases ih h with h2 | h2
        · exact Or.inl h2
        · exact Or.inr (List.mem_cons_of_mem _ h2)

theorem mem_removePos {l : List (String × Position)} {k : String}
    {e : String × Position} (h : e ∈ removePos l k) : e ∈ l := by
  induction l with
  | nil => simp [removePos] at h
  | cons e2 rest ih =>
    by_cases he : e2.1 = k
    · simp only [removePos, if_pos he] at h
      exact List.mem_cons_of_mem _ h
    · simp only [removePos, if_neg he, List.mem_cons] at h
      rcases h with h | h
      · simp [h]
      · exact List.mem_cons_of_mem _ (ih h)

theorem lookupPos_removePos_self {l : List (String × Position)} {k : String}
    (hnd : (l.map Prod.fst).Nodup) : lookupPos (removePos l k) k = none := by
  induction l with
  | nil => simp [removePos, lookupPos]
  | cons e rest ih =>
    simp only [List.map_cons, List.nodup_cons] at hnd
    by_cases he : e.1 = k
    · rw [removePos, if_pos he]
      cases hl : lookupPos rest k with
      | none => rfl
      | some v =>
        exfalso
        exact hnd.1 (by simpa [he] using List.mem_map_of_mem Prod.fst (lookupPos_mem hl))
    · rw [removePos, if_neg he, lookupPos, if_neg he]
      exact ih hnd.2

/-! ### `get_portfolio_value` as a sum -/

theorem portfolioLoop_eq (prices : String → Option ℚ) (l : List (String × Position)) :
    ∀ total : ℚ, portfolioLoop prices total l =
      total + (l.map (positionContribution prices)).sum := by
  induction l with
  | nil => intro total; simp [portfolioLoop]
  | cons e rest ih =>
    intro total
    cases h : prices e.1 with
    | none => simp [portfolioLoop, h, ih, positionContribution]
    | some p =>
      simp only [portfolioLoop, h, ih, List.map_cons, List.sum_cons, positionContribution]
      ring

/-! ### Case equations for `_execute_order` -/

theorem executeOrder_buy_fail (s : TradingSimulator) (o : Order) (p : ℚ)
    (hside : o.side = OrderSide.buy) (h : s.balance < o.quantity * p) :
    executeOrder s o p =
      { success := false, message := "Saldo insuficiente", state := s, order := o } := by
  rw [executeOrder, hside]
  simp [h]

theorem executeOrder_buy_ok (s : TradingSimulator) (o : Order) (p : ℚ)
    (hside : o.side = OrderSide.buy) (h : ¬ s.balance < o.quantity * p) :
    executeOrder s o p =
      { success := true
        message := "Ordem executada com sucesso"
        state :=
          { s with
            balance := s.balance - o.quantity * p
            positions := upsertPos s.positions o.symbol
              { quantity := ((lookupPos s.positions o.symbol).getD
                  { quantity := 0, avg_price := 0, invested := 0 }).quantity + o.quantity
                avg_price :=
                  (((lookupPos s.positions o.symbol).getD
                      { quantity := 0, avg_price := 0, invested := 0 }).invested +
                    o.quantity * p) /
                  (((lookupPos s.positions o.symbol).getD
                      { quantity := 0, avg_price := 0, invested := 0 }).quantity + o.quantity)
                invested := ((lookupPos s.positions o.symbol).getD
                    { quantity := 0, avg_price := 0, invested := 0 }).invested +
                  o.quantity * p } }
        order := { o with status := OrderStatus.executed, executed_price := some p } } := by
  rw [executeOrder, hside]
  simp [h]

theorem executeOrder_sell_none (s : TradingSimulator) (o : Order) (p : ℚ)
    (hside : o.side = OrderSide.sell) (h : lookupPos s.positions o.symbol = none) :
    executeOrder s o p =
      { success := false, message := "Posicao nao encontrada", state := s, order := o } := by
  rw [executeOrder, hside]
  simp [h]

theorem executeOrder_sell_insufficient (s : TradingSimulator) (o : Order) (p : ℚ)
    (pos : Position) (hside : o.side = OrderSide.sell)
    (hl : lookupPos s.positions o.symbol = some pos) (h : pos.quantity < o.quantity) :
    executeOrder s o p =
      { success := false, message := "Quantidade insuficiente", state := s, order := o } := by
  rw [executeOrder, hside]
  simp [hl, h]

theorem executeOrder_sell_ok (s : TradingSimulator) (o : Order) (p : ℚ)
    (pos : Position) (hside : o.side = OrderSide.sell)
    (hl : lookupPos s.positions o.symbol = some pos) (h : ¬ pos.quantity < o.quantity) :
    executeOrder s o p =
      { success := true
        message := "Ordem executada com sucesso"
        state :=
          { s with
            balance := s.balance + o.quantity * p
            positions :=
              if pos.quantity - o.quantity = 0 then removePos s.positions o.symbol
              else upsertPos s.positions o.symbol
                { quantity := pos.quantity - o.quantity
                  avg_price := pos.avg_price
                  invested := pos.invested - o.quantity * pos.avg_price }
            trades := s.trades ++
              [{ id := s.trades.length + 1
                 symbol := o.symbol
                 side := OrderSide.sell
                 quantity := o.quantity
                 entry_price := pos.avg_price
                 exit_price := p
                 pnl := o.quantity * p - o.quantity * pos.avg_price
                 pnl_percentage :=
                   (o.quantity * p - o.quantity * pos.avg_price) /
                     (o.quantity * pos.avg_price) * 100 }] }
        order := { o with status := OrderStatus.executed, executed_price := some p } } := by
  rw [executeOrder, hside]
  simp [hl, h]

theorem executeOrder_success_iff (s : TradingSimulator) (o : Order) (p : ℚ) :
    (executeOrder s o p).success = true ↔
      (o.side = OrderSide.buy ∧ ¬ s.balance < o.quantity * p) ∨
      (o.side = OrderSide.sell ∧ ∃ pos, lookupPos s.positions o.symbol = some pos ∧
        ¬ pos.quantity < o.quantity) := by
  cases hside : o.side
  case buy =>
    by_cases hb : s.balance < o.quantity * p
    · rw [executeOrder_buy_fail s o p hside hb]
      simp [hside, hb]
    · rw [executeOrder_buy_ok s o p hside hb]
      simp [hside, hb]
  case sell =>
    cases hl : lookupPos s.positions o.symbol with
    | none =>
      rw [executeOrder_sell_none s o p hside hl]
      simp [hside, hl]
    | some pos =>
      by_cases hq : pos.quantity < o.quantity
      · rw [executeOrder_sell_insufficient s o p pos hside hl hq]
        simp [hside, hl, hq]
      · rw [executeOrder_sell_ok s o p pos hside hl hq]
        simp [hside, hl, hq]
        exact not_lt.mp hq

theorem executeOrder_fail_frame (s : TradingSimulator) (o : Order) (p : ℚ)
    (h : (executeOrder s o p).success = false) :
    (executeOrder s o p).state = s ∧ (executeOrder s o p).order = o := by
  cases hside : o.side
  case buy =>
    by_cases hb : s.balance < o.quantity * p
    · rw [executeOrder_buy_fail s o p hside hb]
      exact ⟨rfl, rfl⟩
    · rw [executeOrder_buy_ok s o p hside hb] at h
      simp at h
  case sell =>
    cases hl : lookupPos s.positions o.symbol with
    | none =>
      rw [executeOrder_sell_none s o p hside hl]
      exact ⟨rfl, rfl⟩
    | some pos =>
      by_cases hq : pos.quantity < o.quantity
      · rw [executeOrder_sell_insufficient s o p pos hside hl hq]
        exact ⟨rfl, rfl⟩
      · rw [executeOrder_sell_ok s o p pos hside hl hq] at h
        simp at h

theorem executeOrder_frame (s : TradingSimulator) (o : Order) (p : ℚ) :
    (executeOrder s o p).state.orders = s.orders ∧
    (executeOrder s o p).state.initial_balance = s.initial_balance ∧
    (executeOrder s o p).order.quantity = o.quantity := by
  cases hside : o.side
  case buy =>
    by_cases hb : s.balance < o.quantity * p
    · rw [executeOrder_buy_fail s o p hside hb]
      exact ⟨rfl, rfl, rfl⟩
    · rw [executeOrder_buy_ok s o p hside hb]
      exact ⟨rfl, rfl, rfl⟩
  case sell =>
    cases hl : lookupPos s.positions o.symbol with
    | none =>
      rw [executeOrder_sell_none s o p hside hl]
      exact ⟨rfl, rfl, rfl⟩
    | some pos =>
      by_cases hq : pos.quantity < o.quantity
      · rw [executeOrder_sell_insufficient s o p pos hside hl hq]
        exact ⟨rfl, rfl, rfl⟩
      · rw [executeOrder_sell_ok s o p pos hside hl hq]
        exact ⟨rfl, rfl, rfl⟩

theorem executeOrder_order_of_success (s : TradingSimulator) (o : Order) (p : ℚ)
    (h : (executeOrder s o p).success = true) :
    (executeOrder s o p).order =
      { o with status := OrderStatus.executed, executed_price := some p } := by
  cases hside : o.side
  case buy =>
    by_cases hb : s.balance < o.quantity * p
    · rw [executeOrder_buy_fail s o p hside hb] at h
      simp at h
    · rw [executeOrder_buy_ok s o p hside hb, hside]
  case sell =>
    cases hl : lookupPos s.positions o.symbol with
    | none =>
      rw [executeOrder_sell_none s o p hside hl] at h
      simp at h
    | some pos =>
      by_cases hq : pos.quantity < o.quantity
      · rw [executeOrder_sell_insufficient s o p pos hside hl hq] at h
        simp at h
      · rw [executeOrder_sell_ok s o p pos hside hl hq, hside]

/-! ### C1 — portfolio valuation -/

/-- C1 (counterexample): on a ledger with balance 5 and one position of
quantity 1 at average entry price 100, with an empty price mapping, the source
returns 5 (the position is excluded), while the claim predicts
5 + 1 × 100 = 105. -/
theorem portfolio_value_claim_counterexample :
    get_portfolio_value
        { initial_balance := 10000, balance := 5,
          positions := [("BTCUSDT", { quantity := 1, avg_price := 100, invested := 100 })],
          orders := [], trades := [] } (fun _ => none) = 5 ∧
    get_portfolio_value_claimed
        { initial_balance := 10000, balance := 5,
          positions := [("BTCUSDT", { quantity := 1, avg_price := 100, invested := 100 })],
          orders := [], trades := [] } (fun _ => none) = 105 ∧
    (5 : ℚ) ≠ 105 := by
  refine ⟨?_, ?_, by norm_num⟩
  · norm_num [get_portfolio_value, portfolioLoop]
  · norm_num [get_portfolio_value_claimed, claimedContribution]

/-- C1 (amended): for every ledger state and price mapping,
`get_portfolio_value` returns the cash balance plus, for each held position
whose symbol is present in the price mapping, quantity times the current
price; a position whose symbol is absent from the mapping contributes nothing
(it is excluded from the sum; no error occurs). -/
theorem portfolio_value_excludes_unquoted (s : TradingSimulator)
    (prices : String → Option ℚ) :
    get_portfolio_value s prices =
      s.balance + (s.positions.map (positionContribution prices)).sum :=
  portfolioLoop_eq prices s.positions s.balance

/-! ### C2 — `create_order` validation -/

/-- C2 (counterexample): a Limit order with quantity −1 and no limit price is
not rejected: the call returns normally and appends the order as Pending. -/
theorem create_order_validation_counterexample :
    create_order (initSimulator 10000) "BTCUSDT" OrderType.limit OrderSide.buy
        (-1) none none none
      = Except.ok
          ({ initial_balance := 10000, balance := 10000, positions := [],
             orders := [{ id := 1, symbol := "BTCUSDT", type := OrderType.limit,
                          side := OrderSide.buy, quantity := -1, price := none,
                          stop_price := none, status := OrderStatus.pending,
                          executed_price := none, cancel_reason := none }],
             trades := [] },
           { id := 1, symbol := "BTCUSDT", type := OrderType.limit,
             side := OrderSide.buy, quantity := -1, price := none,
             stop_price := none, status := OrderStatus.pending,
             executed_price := none, cancel_reason := none }) ∧
    (-1 : ℚ) ≤ 0 := by
  exact ⟨rfl, by norm_num⟩

/-- C2 (amended): `create_order` validates only that a Market order carries a
reference price: the call fails — raising before anything is appended — iff
type = Market and `current_price` is missing; every other call, including
quantity ≤ 0, Limit without a limit price, and Stop/TakeProfit without a
trigger price, appends exactly one order, which for non-Market types is the
freshly built Pending order and leaves balance, positions and trades
untouched. -/
theorem create_order_market_only_validation (s : TradingSimulator) (symbol : String)
    (ot : OrderType) (side : OrderSide) (q : ℚ) (price sp cp : Option ℚ) :
    ((∃ e, create_order s symbol ot side q price sp cp = Except.error e) ↔
      ot = OrderType.market ∧ cp = none) ∧
    (∀ s2 o, create_order s symbol ot side q price sp cp = Except.ok (s2, o) →
      s2.orders = s.orders ++ [o] ∧
      (ot ≠ OrderType.market →
        o = newOrder s symbol ot side q price sp ∧ o.status = OrderStatus.pending ∧
        s2.balance = s.balance ∧ s2.positions = s.positions ∧ s2.trades = s.trades)) := by
  cases ot
  case market =>
    cases cp with
    | none =>
      constructor
      · simp [create_order]
      · intro s2 o h
        simp [create_order] at h
    | some v =>
      constructor
      · simp [create_order]
      · intro s2 o h
        simp only [create_order] at h
        rw [Except.ok.injEq, Prod.mk.injEq] at h
        obtain ⟨h1, h2⟩ := h
        subst h1
        subst h2
        refine ⟨?_, ?_⟩
        · simp [(executeOrder_frame s (newOrder s symbol OrderType.market side q price sp) v).1]
        · intro hne
          exact absurd rfl hne
  case limit =>
    constructor
    · simp [create_order]
    · intro s2 o h
      simp only [create_order] at h
      rw [Except.ok.injEq, Prod.mk.injEq] at h
      obtain ⟨h1, h2⟩ := h
      subst h1
      subst h2
      exact ⟨rfl, fun _ => ⟨rfl, rfl, rfl, rfl, rfl⟩⟩
  case stop_loss =>
    constructor
    · simp [create_order]
    · intro s2 o h
      simp only [create_order] at h
      rw [Except.ok.injEq, Prod.mk.injEq] at h
      obtain ⟨h1, h2⟩ := h
      subst h1
      subst h2
      exact ⟨rfl, fun _ => ⟨rfl, rfl, rfl, rfl, rfl⟩⟩
  case take_profit =>
    constructor
    · simp [create_order]
    · intro s2 o h
      simp only [create_order] at h
      rw [Except.ok.injEq, Prod.mk.injEq] at h
      obtain ⟨h1, h2⟩ := h
      subst h1
      subst h2
      exact ⟨rfl, fun _ => ⟨rfl, rfl, rfl, rfl, rfl⟩⟩

/-- Witness for the amended C2 theorem, at a concrete Limit call with
quantity −1 and no limit price. -/
theorem create_order_market_only_validation_witness :
    ¬ (∃ e, create_order (initSimulator 10000) "ETHUSDT" OrderType.limit OrderSide.buy
        (-1) none none none = Except.error e) := by
  have h := create_order_market_only_validation (initSimulator 10000) "ETHUSDT"
    OrderType.limit OrderSide.buy (-1) none none none
  intro he
  have := h.1.mp he
  exact absurd this.1 (by decide)

/-! ### C3 — execution failure is an atomic no-op -/

/-- C3: an execution fails exactly when the Buy cost exceeds the balance, or
the Sell has no position or more quantity than held; failure leaves the entire
ledger state untouched; and a Market order whose immediate execution failed is
still appended to the order history, Cancelled, with the failure message as
its cancellation reason. -/
theorem execution_failure_is_atomic_noop (s : TradingSimulator) (o : Order) (p : ℚ) :
    ((executeOrder s o p).success = false ↔
      (o.side = OrderSide.buy ∧ s.balance < o.quantity * p) ∨
      (o.side = OrderSide.sell ∧ lookupPos s.positions o.symbol = none) ∨
      (o.side = OrderSide.sell ∧ ∃ pos, lookupPos s.positions o.symbol = some pos ∧
        pos.quantity < o.quantity)) ∧
    ((executeOrder s o p).success = false → (executeOrder s o p).state = s) ∧
    (∀ symbol side q price sp s2 ord,
      create_order s symbol OrderType.market side q price sp (some p) = Except.ok (s2, ord) →
      (executeOrder s (newOrder s symbol OrderType.market side q price sp) p).success = false →
      s2.balance = s.balance ∧ s2.positions = s.positions ∧ s2.trades = s.trades ∧
      s2.orders = s.orders ++ [ord] ∧ ord.status = OrderStatus.cancelled ∧
      ord.cancel_reason =
        some (executeOrder s (newOrder s symbol OrderType.market side q price sp) p).message) := by
  refine ⟨⟨?_, ?_⟩, fun hf => (executeOrder_fail_frame s o p hf).1, ?_⟩
  · intro hfalse
    cases hside : o.side
    case buy =>
      by_cases hb : s.balance < o.quantity * p
      · exact Or.inl ⟨rfl, hb⟩
      · have ht : (executeOrder s o p).success = true :=
          (executeOrder_success_iff s o p).mpr (Or.inl ⟨hside, hb⟩)
        rw [ht] at hfalse
        cases hfalse
    case sell =>
      cases hl : lookupPos s.positions o.symbol with
      | none => exact Or.inr (Or.inl ⟨rfl, rfl⟩)
      | some pos =>
        by_cases hq : pos.quantity < o.quantity
        · exact Or.inr (Or.inr ⟨rfl, pos, rfl, hq⟩)
        · have ht : (executeOrder s o p).success = true :=
            (executeOrder_success_iff s o p).mpr (Or.inr ⟨hside, pos, hl, hq⟩)
          rw [ht] at hfalse
          cases hfalse
  · intro hcond
    rcases hcond with ⟨hside, hb⟩ | ⟨hside, hl⟩ | ⟨hside, pos, hl, hq⟩
    · rw [executeOrder_buy_fail s o p hside hb]
    · rw [executeOrder_sell_none s o p hside hl]
    · rw [executeOrder_sell_insufficient s o p pos hside hl hq]
  · intro symbol side q price sp s2 ord hcreate hfail
    have hframe := executeOrder_fail_frame s (newOrder s symbol OrderType.market side q price sp) p hfail
    simp only [create_order, hfail, Bool.false_eq_true, if_false] at hcreate
    rw [Except.ok.injEq, Prod.mk.injEq] at hcreate
    obtain ⟨h1, h2⟩ := hcreate
    subst h2
    subst h1
    refine ⟨?_, ?_, ?_, ?_, rfl, rfl⟩
    · simp [hframe.1]
    · simp [hframe.1]
    · simp [hframe.1]
    · simp [hframe.1]

/-- Witness for C3 at Scenario 3: a Market Buy of quantity 1 at price 100000
against balance 10000 fails. -/
theorem execution_failure_is_atomic_noop_witness :
    (executeOrder (initSimulator 10000)
      (newOrder (initSimulator 10000) "BTCUSDT" OrderType.market OrderSide.buy 1 none none)
      100000).success = false :=
  (execution_failure_is_atomic_noop (initSimulator 10000)
    (newOrder (initSimulator 10000) "BTCUSDT" OrderType.market OrderSide.buy 1 none none)
    100000).1.mpr (Or.inl ⟨rfl, by norm_num [initSimulator, newOrder]⟩)

/-! ### C4 — effects of a successful execution -/

/-- C4: a successful execution at price `p` marks the order Executed at `p`;
a Buy decreases the balance by exactly `q × p` and updates (or creates) the
position to `invested + q×p`, `quantity + q`, average = invested' / quantity';
a Sell increases the balance by exactly `q × p`, decrements the position's
quantity by `q` and its cost basis by `q × avg` (removing it when the quantity
reaches 0), and appends a trade with `pnl = q×p − q×avg` and
`pnl_percentage = pnl / (q×avg) × 100`. -/
theorem execution_success_effects (s : TradingSimulator) (o : Order) (p : ℚ)
    (hnd : (s.positions.map Prod.fst).Nodup)
    (h : (executeOrder s o p).success = true) :
    (executeOrder s o p).order =
      { o with status := OrderStatus.executed, executed_price := some p } ∧
    (o.side = OrderSide.buy →
      (executeOrder s o p).state.balance = s.balance - o.quantity * p ∧
      (executeOrder s o p).state.trades = s.trades ∧
      lookupPos (executeOrder s o p).state.positions o.symbol =
        some { quantity := (currentPosition s o.symbol).quantity + o.quantity
               avg_price :=
                 ((currentPosition s o.symbol).invested + o.quantity * p) /
                   ((currentPosition s o.symbol).quantity + o.quantity)
               invested := (currentPosition s o.symbol).invested + o.quantity * p }) ∧
    (o.side = OrderSide.sell →
      ∃ pos, lookupPos s.positions o.symbol = some pos ∧ o.quantity ≤ pos.quantity ∧
        (executeOrder s o p).state.balance = s.balance + o.quantity * p ∧
        (executeOrder s o p).state.trades = s.trades ++
          [{ id := s.trades.length + 1, symbol := o.symbol, side := OrderSide.sell,
             quantity := o.quantity, entry_price := pos.avg_price, exit_price := p,
             pnl := o.quantity * p - o.quantity * pos.avg_price,
             pnl_percentage := (o.quantity * p - o.quantity * pos.avg_price) /
               (o.quantity * pos.avg_price) * 100 }] ∧
        (o.quantity < pos.quantity →
          lookupPos (executeOrder s o p).state.positions o.symbol =
            some { quantity := pos.quantity - o.quantity, avg_price := pos.avg_price,
                   invested := pos.invested - o.quantity * pos.avg_price }) ∧
        (o.quantity = pos.quantity →
          lookupPos (executeOrder s o p).state.positions o.symbol = none)) := by
  refine ⟨executeOrder_order_of_success s o p h, ?_, ?_⟩
  · intro hside
    have hb : ¬ s.balance < o.quantity * p := by
      rcases (executeOrder_success_iff s o p).mp h with ⟨_, hb⟩ | ⟨hss, _⟩
      · exact hb
      · rw [hside] at hss
        cases hss
    rw [executeOrder_buy_ok s o p hside hb]
    exact ⟨rfl, rfl, lookupPos_upsertPos_self _ _ _⟩
  · intro hside
    obtain ⟨pos, hl, hq⟩ :
        ∃ pos, lookupPos s.positions o.symbol = some pos ∧ ¬ pos.quantity < o.quantity := by
      rcases (executeOrder_success_iff s o p).mp h with ⟨hss, _⟩ | ⟨_, pos, hl, hq⟩
      · rw [hside] at hss
        cases hss
      · exact ⟨pos, hl, hq⟩
    refine ⟨pos, hl, not_lt.mp hq, ?_, ?_, ?_, ?_⟩
    · rw [executeOrder_sell_ok s o p pos hside hl hq]
    · rw [executeOrder_sell_ok s o p pos hside hl hq]
    · intro hlt
      have hne : pos.quantity - o.quantity ≠ 0 := sub_ne_zero.mpr (ne_of_gt hlt)
      rw [executeOrder_sell_ok s o p pos hside hl hq]
      show lookupPos (if pos.quantity - o.quantity = 0 then removePos s.positions o.symbol
        else upsertPos s.positions o.symbol
          { quantity := pos.quantity - o.quantity, avg_price := pos.avg_price,
            invested := pos.invested - o.quantity * pos.avg_price }) o.symbol = _
      rw [if_neg hne]
      exact lookupPos_upsertPos_self _ _ _
    · intro heq
      have h0 : pos.quantity - o.quantity = 0 := by rw [heq, sub_self]
      rw [executeOrder_sell_ok s o p pos hside hl hq]
      show lookupPos (if pos.quantity - o.quantity = 0 then removePos s.positions o.symbol
        else upsertPos s.positions o.symbol
          { quantity := pos.quantity - o.quantity, avg_price := pos.avg_price,
            invested := pos.invested - o.quantity * pos.avg_price }) o.symbol = _
      rw [if_pos h0]
      exact lookupPos_removePos_self hnd

/-- Witness for C4 at Scenario 1: buying 0.1 at 40000 from a fresh balance of
10000 leaves balance 6000. -/
theorem execution_success_effects_witness :
    (executeOrder (initSimulator 10000)
        (newOrder (initSimulator 10000) "BTCUSDT" OrderType.market OrderSide.buy
          (1/10) none none) 40000).state.balance = 6000 := by
  have hsucc : (executeOrder (initSimulator 10000)
      (newOrder (initSimulator 10000) "BTCUSDT" OrderType.market OrderSide.buy
        (1/10) none none) 40000).success = true :=
    (executeOrder_success_iff _ _ _).mpr
      (Or.inl ⟨rfl, by norm_num [initSimulator, newOrder]⟩)
  have h := execution_success_effects (initSimulator 10000)
    (newOrder (initSimulator 10000) "BTCUSDT" OrderType.market OrderSide.buy
      (1/10) none none) 40000 (by simp [initSimulator]) hsucc
  have hb := (h.2.1 rfl).1
  rw [hb]
  norm_num [initSimulator, newOrder]

/-! ### C6 — selling never changes the average entry price -/

/-- C6: a Sell execution of quantity ≤ the held quantity leaves the average
entry price of any remaining position for that symbol unchanged, and the
appended trade records the pre-sale average price as its entry price. -/
theorem sell_preserves_avg_price (s : TradingSimulator) (o : Order) (p : ℚ) (pos : Position)
    (hside : o.side = OrderSide.sell)
    (hl : lookupPos s.positions o.symbol = some pos)
    (hq : o.quantity ≤ pos.quantity)
    (hnd : (s.positions.map Prod.fst).Nodup) :
    (∀ pos2, lookupPos (executeOrder s o p).state.positions o.symbol = some pos2 →
      pos2.avg_price = pos.avg_price) ∧
    (∃ t, (executeOrder s o p).state.trades = s.trades ++ [t] ∧
      t.entry_price = pos.avg_price) := by
  have hq2 : ¬ pos.quantity < o.quantity := not_lt.mpr hq
  constructor
  · intro pos2 h2
    rw [executeOrder_sell_ok s o p pos hside hl hq2] at h2
    have h2a : lookupPos (if pos.quantity - o.quantity = 0 then removePos s.positions o.symbol
        else upsertPos s.positions o.symbol
          { quantity := pos.quantity - o.quantity, avg_price := pos.avg_price,
            invested := pos.invested - o.quantity * pos.avg_price }) o.symbol = some pos2 := h2
    by_cases h0 : pos.quantity - o.quantity = 0
    · rw [if_pos h0, lookupPos_removePos_self hnd] at h2a
      cases h2a
    · rw [if_neg h0, lookupPos_upsertPos_self] at h2a
      injection h2a with h2a
      rw [← h2a]
  · rw [executeOrder_sell_ok s o p pos hside hl hq2]
    exact ⟨_, rfl, rfl⟩

/-- Witness for C6 at Scenario 2: selling the whole 0.1 position bought at
40000; the appended trade's entry price is 40000. -/
theorem sell_preserves_avg_price_witness :
    ∃ t, (executeOrder
        { initial_balance := 10000, balance := 6000,
          positions := [("BTCUSDT", { quantity := 1/10, avg_price := 40000, invested := 4000 })],
          orders := [], trades := [] }
        (newOrder
          { initial_balance := 10000, balance := 6000,
            positions := [("BTCUSDT", { quantity := 1/10, avg_price := 40000, invested := 4000 })],
            orders := [], trades := [] }
          "BTCUSDT" OrderType.market OrderSide.sell (1/10) none none)
        45000).state.trades = [] ++ [t] ∧ t.entry_price = 40000 := by
  have h := sell_preserves_avg_price
    { initial_balance := 10000, balance := 6000,
      positions := [("BTCUSDT", { quantity := 1/10, avg_price := 40000, invested := 4000 })],
      orders := [], trades := [] }
    (newOrder
      { initial_balance := 10000, balance := 6000,
        positions := [("BTCUSDT", { quantity := 1/10, avg_price := 40000, invested := 4000 })],
        orders := [], trades := [] }
      "BTCUSDT" OrderType.market OrderSide.sell (1/10) none none)
    45000 { quantity := 1/10, avg_price := 40000, invested := 4000 }
    rfl (by simp [lookupPos, newOrder]) (by norm_num [newOrder]) (by simp)
  exact h.2

/-! ### C8 — statistics -/

/-- C8: `get_statistics` depends only on the trade history; winning trades are
exactly those with pnl > 0, losing exactly those with pnl < 0,
win_rate = winning / total × 100, avg_win / avg_loss are means over their
subsets (0 when empty), best / worst trade are the maximum / minimum pnl, and
the empty history yields the all-zero record without error. -/
theorem statistics_spec (s : TradingSimulator) :
    (∀ s2 : TradingSimulator, s2.trades = s.trades → get_statistics s2 = get_statistics s) ∧
    (s.trades = [] →
      get_statistics s =
        { total_trades := 0, winning_trades := 0, losing_trades := 0, win_rate := 0,
          total_pnl := 0, avg_win := 0, avg_loss := 0, best_trade := 0, worst_trade := 0 }) ∧
    (s.trades ≠ [] →
      (get_statistics s).total_trades = s.trades.length ∧
      (get_statistics s).winning_trades = (s.trades.filter (fun t => 0 < t.pnl)).length ∧
      (get_statistics s).losing_trades = (s.trades.filter (fun t => t.pnl < 0)).length ∧
      (get_statistics s).win_rate =
        ((s.trades.filter (fun t => 0 < t.pnl)).length : ℚ) / (s.trades.length : ℚ) * 100 ∧
      (get_statistics s).total_pnl = (s.trades.map Trade.pnl).sum ∧
      (s.trades.filter (fun t => 0 < t.pnl) = [] → (get_statistics s).avg_win = 0) ∧
      (s.trades.filter (fun t => 0 < t.pnl) ≠ [] →
        (get_statistics s).avg_win =
          ((s.trades.filter (fun t => 0 < t.pnl)).map Trade.pnl).sum /
            ((s.trades.filter (fun t => 0 < t.pnl)).length : ℚ)) ∧
      (s.trades.filter (fun t => t.pnl < 0) = [] → (get_statistics s).avg_loss = 0) ∧
      (s.trades.filter (fun t => t.pnl < 0) ≠ [] →
        (get_statistics s).avg_loss =
          ((s.trades.filter (fun t => t.pnl < 0)).map Trade.pnl).sum /
            ((s.trades.filter (fun t => t.pnl < 0)).length : ℚ)) ∧
      ((get_statistics s).best_trade ∈ s.trades.map Trade.pnl ∧
        ∀ x ∈ s.trades.map Trade.pnl, x ≤ (get_statistics s).best_trade) ∧
      ((get_statistics s).worst_trade ∈ s.trades.map Trade.pnl ∧
        ∀ x ∈ s.trades.map Trade.pnl, (get_statistics s).worst_trade ≤ x)) := by
  refine ⟨?_, ?_, ?_⟩
  · intro s2 h2
    simp only [get_statistics, h2]
  · intro h0
    simp [get_statistics, h0]
  · intro hne
    have hstats : get_statistics s =
        { total_trades := s.trades.length
          winning_trades := (s.trades.filter (fun t => 0 < t.pnl)).length
          losing_trades := (s.trades.filter (fun t => t.pnl < 0)).length
          win_rate :=
            ((s.trades.filter (fun t => 0 < t.pnl)).length : ℚ) / (s.trades.length : ℚ) * 100
          total_pnl := (s.trades.map Trade.pnl).sum
          avg_win :=
            if s.trades.filter (fun t => 0 < t.pnl) = [] then 0
            else ((s.trades.filter (fun t => 0 < t.pnl)).map Trade.pnl).sum /
              ((s.trades.filter (fun t => 0 < t.pnl)).length : ℚ)
          avg_loss :=
            if s.trades.filter (fun t => t.pnl < 0) = [] then 0
            else ((s.trades.filter (fun t => t.pnl < 0)).map Trade.pnl).sum /
              ((s.trades.filter (fun t => t.pnl < 0)).length : ℚ)
          best_trade := (s.trades.map Trade.pnl).max?.getD 0
          worst_trade := (s.trades.map Trade.pnl).min?.getD 0 } := by
      rw [get_statistics, if_neg hne]
    have hpne : s.trades.map Trade.pnl ≠ [] := by
      intro h0
      exact hne (List.map_eq_nil_iff.mp h0)
    obtain ⟨a, ha⟩ : ∃ a, (s.trades.map Trade.pnl).max? = some a := by
      cases hm : (s.trades.map Trade.pnl).max? with
      | none => exact absurd (List.max?_eq_none_iff.mp hm) hpne
      | some a => exact ⟨a, rfl⟩
    obtain ⟨b, hb⟩ : ∃ b, (s.trades.map Trade.pnl).min? = some b := by
      cases hm : (s.trades.map Trade.pnl).min? with
      | none => exact absurd (List.min?_eq_none_iff.mp hm) hpne
      | some b => exact ⟨b, rfl⟩
    refine ⟨by rw [hstats], by rw [hstats], by rw [hstats], by rw [hstats], by rw [hstats],
      ?_, ?_, ?_, ?_, ?_, ?_⟩
    · intro hw
      rw [hstats]
      simp [hw]
    · intro hw
      rw [hstats]
      simp [hw]
    · intro hw
      rw [hstats]
      simp [hw]
    · intro hw
      rw [hstats]
      simp [hw]
    · constructor
      · rw [hstats]
        show (s.trades.map Trade.pnl).max?.getD 0 ∈ s.trades.map Trade.pnl
        rw [ha, Option.getD_some]
        exact List.max?_mem (fun x y => max_choice x y) ha
      · intro x hx
        rw [hstats]
        show x ≤ (s.trades.map Trade.pnl).max?.getD 0
        rw [ha, Option.getD_some]
        exact ((List.max?_le_iff (fun x y z => max_le_iff) ha).mp (le_refl a)) x hx
    · constructor
      · rw [hstats]
        show (s.trades.map Trade.pnl).min?.getD 0 ∈ s.trades.map Trade.pnl
        rw [hb, Option.getD_some]
        exact List.min?_mem (fun x y => min_choice x y) hb
      · intro x hx
        rw [hstats]
        show (s.trades.map Trade.pnl).min?.getD 0 ≤ x
        rw [hb, Option.getD_some]
        exact ((List.le_min?_iff (fun x y z => le_min_iff) hb).mp (le_refl b)) x hx

/-- Witness for C8 on a two-trade history (one win, one loss). -/
theorem statistics_spec_witness :
    Statistics.total_trades (get_statistics
      { initial_balance := 10000, balance := 10000, positions := [], orders := [],
        trades :=
          [{ id := 1, symbol := "BTCUSDT", side := OrderSide.sell, quantity := 1,
             entry_price := 100, exit_price := 150, pnl := 50, pnl_percentage := 50 },
           { id := 2, symbol := "BTCUSDT", side := OrderSide.sell, quantity := 1,
             entry_price := 100, exit_price := 80, pnl := -20, pnl_percentage := -20 }] }) = 2 := by
  have h := (statistics_spec
    { initial_balance := 10000, balance := 10000, positions := [], orders := [],
      trades :=
        [{ id := 1, symbol := "BTCUSDT", side := OrderSide.sell, quantity := 1,
           entry_price := 100, exit_price := 150, pnl := 50, pnl_percentage := 50 },
         { id := 2, symbol := "BTCUSDT", side := OrderSide.sell, quantity := 1,
           entry_price := 100, exit_price := 80, pnl := -20, pnl_percentage := -20 }] }).2.2
    (by simp)
  rw [h.1]
  rfl

/-! ### `process_pending_orders` machinery -/


theorem orderOutcome_mono {prices : String → Option ℚ} {ex ex2 : List Order} {o o2 : Order}
    (hsub : ∀ x ∈ ex, x ∈ ex2) (h : OrderOutcome prices ex o o2) :
    OrderOutcome prices ex2 o o2 := by
  obtain ⟨h1, h2, h3⟩ := h
  refine ⟨h1, h2, fun cp hp hcp => ?_⟩
  obtain ⟨ha, hb2, hc⟩ := h3 cp hp hcp
  refine ⟨ha, hb2, fun htrue => ?_⟩
  rcases hc htrue with ⟨heq, hmem⟩ | hcanc
  · exact Or.inl ⟨heq, hsub _ hmem⟩
  · exact Or.inr hcanc

theorem processPendingAux_outcomes (prices : String → Option ℚ) :
    ∀ (os : List Order) (s : TradingSimulator) (os2 ex : List Order) (s2 : TradingSimulator),
      processPendingAux prices s os = Except.ok (os2, ex, s2) →
      s2.orders = s.orders ∧
      (∀ o ∈ ex, o.status = OrderStatus.executed) ∧
      List.Forall₂ (OrderOutcome prices ex) os os2 := by
  intro os
  induction os with
  | nil =>
    intro s os2 ex s2 h
    simp only [processPendingAux, Except.ok.injEq, Prod.mk.injEq] at h
    obtain ⟨h1, h2, h3⟩ := h
    subst h1; subst h2; subst h3
    exact ⟨rfl, fun o ho => absurd ho (List.not_mem_nil o), List.Forall₂.nil⟩
  | cons o rest ih =>
    intro s os2 ex s2 h
    rw [processPendingAux] at h
    split at h
    case isTrue hst =>
      split at h
      case h_1 hpr =>
        split at h
        case h_1 e heq => exact absurd h (by simp)
        case h_2 ros rex rs heq =>
          simp only [Except.ok.injEq, Prod.mk.injEq] at h
          obtain ⟨h1, h2, h3⟩ := h
          subst h1; subst h2; subst h3
          obtain ⟨hord, hexst, hfa⟩ := ih s ros rex rs heq
          refine ⟨hord, hexst, List.Forall₂.cons ?_ hfa⟩
          refine ⟨fun hne => absurd hst hne, fun _ _ => rfl, fun cp hp hcp => ?_⟩
          rw [hpr] at hcp
          exact absurd hcp (by simp)
      case h_2 cp hpr =>
        split at h
        case h_1 hse => exact absurd h (by simp)
        case h_2 hse =>
          split at h
          case h_1 e heq => exact absurd h (by simp)
          case h_2 ros rex rs heq =>
            simp only [Except.ok.injEq, Prod.mk.injEq] at h
            obtain ⟨h1, h2, h3⟩ := h
            subst h1; subst h2; subst h3
            obtain ⟨hord, hexst, hfa⟩ := ih s ros rex rs heq
            refine ⟨hord, hexst, List.Forall₂.cons ?_ hfa⟩
            refine ⟨fun hne => absurd hst hne, fun _ _ => rfl, fun cp2 hp2 hcp2 => ?_⟩
            rw [hpr] at hcp2
            injection hcp2 with hcp2
            subst hcp2
            refine ⟨by rw [hse]; simp, fun _ => rfl, fun htrue => ?_⟩
            rw [hse] at htrue
            simp at htrue
        case h_3 hse =>
          split at h
          case isTrue hsucc =>
            split at h
            case h_1 e heq => exact absurd h (by simp)
            case h_2 ros rex rs heq =>
              simp only [Except.ok.injEq, Prod.mk.injEq] at h
              obtain ⟨h1, h2, h3⟩ := h
              subst h1; subst h2; subst h3
              obtain ⟨hord, hexst, hfa⟩ := ih (executeOrder s o cp).state ros rex rs heq
              refine ⟨hord.trans (executeOrder_frame s o cp).1, ?_, List.Forall₂.cons ?_ ?_⟩
              · intro x hx
                rcases List.mem_cons.mp hx with rfl | hx2
                · rw [executeOrder_order_of_success s o cp hsucc]
                · exact hexst x hx2
              · refine ⟨fun hne => absurd hst hne, ?_, fun cp2 hp2 hcp2 => ?_⟩
                · intro _ hnone
                  rw [hpr] at hnone
                  exact absurd hnone (by simp)
                · rw [hpr] at hcp2
                  injection hcp2 with hcp2
                  subst hcp2
                  refine ⟨by rw [hse]; simp, fun hfalse => ?_, fun _ => ?_⟩
                  · rw [hse] at hfalse
                    simp at hfalse
                  · exact Or.inl ⟨executeOrder_order_of_success s o cp hsucc,
                      List.mem_cons_self _ _⟩
              · exact List.Forall₂.imp
                  (fun a b hab =>
                    orderOutcome_mono (fun x hx => List.mem_cons_of_mem _ hx) hab) hfa
          case isFalse hsucc =>
            split at h
            case h_1 e heq => exact absurd h (by simp)
            case h_2 ros rex rs heq =>
              simp only [Except.ok.injEq, Prod.mk.injEq] at h
              obtain ⟨h1, h2, h3⟩ := h
              subst h1; subst h2; subst h3
              obtain ⟨hord, hexst, hfa⟩ := ih (executeOrder s o cp).state ros rex rs heq
              refine ⟨hord.trans (executeOrder_frame s o cp).1, hexst, List.Forall₂.cons ?_ hfa⟩
              refine ⟨fun hne => absurd hst hne, ?_, fun cp2 hp2 hcp2 => ?_⟩
              · intro _ hnone
                rw [hpr] at hnone
                exact absurd hnone (by simp)
              · rw [hpr] at hcp2
                injection hcp2 with hcp2
                subst hcp2
                refine ⟨by rw [hse]; simp, fun hfalse => ?_, fun _ => ?_⟩
                · rw [hse] at hfalse
                  simp at hfalse
                · exact Or.inr ⟨rfl, by simp, rfl⟩
    case isFalse hst =>
      split at h
      case h_1 e heq => exact absurd h (by simp)
      case h_2 ros rex rs heq =>
        simp only [Except.ok.injEq, Prod.mk.injEq] at h
        obtain ⟨h1, h2, h3⟩ := h
        subst h1; subst h2; subst h3
        obtain ⟨hord, hexst, hfa⟩ := ih s ros rex rs heq
        refine ⟨hord, hexst, List.Forall₂.cons ?_ hfa⟩
        exact ⟨fun _ => rfl, fun hp _ => absurd hp hst, fun cp hp hcp => absurd hp hst⟩



theorem orderOutcome_quantity {prices : String → Option ℚ} {ex : List Order} {o o2 : Order}
    (h : OrderOutcome prices ex o o2) : o2.quantity = o.quantity := by
  obtain ⟨h1, h2, h3⟩ := h
  by_cases hst : o.status = OrderStatus.pending
  · cases hpr : prices o.symbol with
    | none => rw [h2 hst hpr]
    | some cp =>
      obtain ⟨ha, hb2, hc⟩ := h3 cp hst hpr
      cases hse : shouldExecute o cp with
      | none => exact absurd hse ha
      | some b =>
        cases b with
        | false => rw [hb2 hse]
        | true =>
          rcases hc hse with ⟨heq, _⟩ | ⟨_, _, hq⟩
          · rw [heq]
          · exact hq
  · rw [h1 hst]

theorem forall₂_right_mem {R : Order → Order → Prop} :
    ∀ {l1 l2 : List Order}, List.Forall₂ R l1 l2 → ∀ b ∈ l2, ∃ a, a ∈ l1 ∧ R a b := by
  intro l1 l2 h
  induction h with
  | nil => intro b hb; exact absurd hb (List.not_mem_nil b)
  | @cons a b as bs hab htail ih =>
    intro c hc
    rcases List.mem_cons.mp hc with rfl | hc2
    · exact ⟨a, List.mem_cons_self _ _, hab⟩
    · obtain ⟨x, hx, hxc⟩ := ih c hc2
      exact ⟨x, List.mem_cons_of_mem _ hx, hxc⟩

theorem processPendingAux_stable (prices : String → Option ℚ) :
    ∀ (os : List Order) (s : TradingSimulator),
      (∀ o ∈ os, o.status = OrderStatus.pending →
        prices o.symbol = none ∨
        ∃ cp, prices o.symbol = some cp ∧ shouldExecute o cp = some false) →
      processPendingAux prices s os = Except.ok (os, [], s) := by
  intro os
  induction os with
  | nil =>
    intro s _
    simp [processPendingAux]
  | cons o rest ih =>
    intro s hcond
    have hrest := ih s (fun o2 ho2 h2 => hcond o2 (List.mem_cons_of_mem o ho2) h2)
    by_cases hst : o.status = OrderStatus.pending
    · rcases hcond o (List.mem_cons_self o rest) hst with hnone | ⟨cp, hcp, hfalse⟩
      · simp [processPendingAux, hst, hnone, hrest]
      · simp [processPendingAux, hst, hcp, hfalse, hrest]
    · simp [processPendingAux, hst, hrest]


/-! ### C5 and C7 -/


theorem shouldExecute_limit_iff (o : Order) (cp target : ℚ)
    (hty : o.type = OrderType.limit) (hpr : o.price = some target) :
    shouldExecute o cp = some true ↔
      (o.side = OrderSide.buy ∧ cp ≤ target) ∨ (o.side = OrderSide.sell ∧ target ≤ cp) := by
  simp only [shouldExecute, hty, hpr]
  split_ifs with h1 h2
  · simp [h1]
  · simp [h2]
  · constructor
    · intro hx
      simp at hx
    · intro hx
      rcases hx with hx | hx
      · exact absurd hx h1
      · exact absurd hx h2

theorem shouldExecute_stop_iff (o : Order) (cp target : ℚ)
    (hty : o.type = OrderType.stop_loss) (hpr : o.stop_price = some target) :
    shouldExecute o cp = some true ↔ cp ≤ target := by
  simp [shouldExecute, hty, hpr]

theorem shouldExecute_take_iff (o : Order) (cp target : ℚ)
    (hty : o.type = OrderType.take_profit) (hpr : o.stop_price = some target) :
    shouldExecute o cp = some true ↔ target ≤ cp := by
  simp [shouldExecute, hty, hpr]

/-- C5: `process_pending_orders` walks the order history in creation order,
touches only Pending orders whose symbol has a quote, and triggers execution
at the current price exactly by the type predicates — Limit Buy:
`current ≤ limit`; Limit Sell: `current ≥ limit`; StopLoss:
`current ≤ trigger`; TakeProfit: `current ≥ trigger` — while Pending orders
with no quote (and non-Pending orders) are left exactly as they were. -/
theorem process_pending_trigger_semantics (s : TradingSimulator)
    (prices : String → Option ℚ) (ex : List Order) (s2 : TradingSimulator)
    (h : process_pending_orders s prices = Except.ok (ex, s2)) :
    List.Forall₂ (OrderOutcome prices ex) s.orders s2.orders ∧
    (∀ o ∈ ex, o.status = OrderStatus.executed) ∧
    (∀ (o : Order) (cp target : ℚ),
      (o.type = OrderType.limit → o.price = some target →
        (shouldExecute o cp = some true ↔
          (o.side = OrderSide.buy ∧ cp ≤ target) ∨
          (o.side = OrderSide.sell ∧ target ≤ cp))) ∧
      (o.type = OrderType.stop_loss → o.stop_price = some target →
        (shouldExecute o cp = some true ↔ cp ≤ target)) ∧
      (o.type = OrderType.take_profit → o.stop_price = some target →
        (shouldExecute o cp = some true ↔ target ≤ cp))) := by
  rw [process_pending_orders] at h
  split at h
  case h_1 e heq => exact absurd h (by simp)
  case h_2 os2 ex2 sfin heq =>
    simp only [Except.ok.injEq, Prod.mk.injEq] at h
    obtain ⟨h1, h2⟩ := h
    subst h1
    subst h2
    obtain ⟨hord, hexst, hfa⟩ := processPendingAux_outcomes prices s.orders s os2 ex2 sfin heq
    exact ⟨hfa, hexst, fun o cp target =>
      ⟨shouldExecute_limit_iff o cp target, shouldExecute_stop_iff o cp target,
       shouldExecute_take_iff o cp target⟩⟩

/-- Witness for C5: the limit-buy trigger predicate fires at 1900 against a
limit of 2000 (Scenario 4), extracted from the theorem applied to a concrete
call. -/
theorem process_pending_trigger_semantics_witness :
    shouldExecute
      { id := 1, symbol := "ETHUSDT", type := OrderType.limit, side := OrderSide.buy,
        quantity := 1, price := some 2000, stop_price := none,
        status := OrderStatus.pending, executed_price := none, cancel_reason := none }
      1900 = some true := by
  have h := process_pending_trigger_semantics (initSimulator 10000) (fun _ => none)
    [] (initSimulator 10000) rfl
  exact ((h.2.2
    { id := 1, symbol := "ETHUSDT", type := OrderType.limit, side := OrderSide.buy,
      quantity := 1, price := some 2000, stop_price := none,
      status := OrderStatus.pending, executed_price := none, cancel_reason := none }
    1900 2000).1 rfl rfl).mpr (Or.inl ⟨rfl, by norm_num⟩)

/-- C7: re-running `process_pending_orders` with unchanged quotes is a no-op:
after one successful call, a second call with the same price mapping returns
an empty executed list and leaves the state unchanged (every order that was
Pending before the first call is executed at most once, and resolved orders
are never inspected again). -/
theorem process_pending_idempotent (s : TradingSimulator) (prices : String → Option ℚ)
    (ex : List Order) (s2 : TradingSimulator)
    (h : process_pending_orders s prices = Except.ok (ex, s2)) :
    process_pending_orders s2 prices = Except.ok ([], s2) := by
  rw [process_pending_orders] at h
  split at h
  case h_1 e heq => exact absurd h (by simp)
  case h_2 os2 ex2 sfin heq =>
    simp only [Except.ok.injEq, Prod.mk.injEq] at h
    obtain ⟨h1, h2⟩ := h
    subst h1
    subst h2
    obtain ⟨hord, hexst, hfa⟩ := processPendingAux_outcomes prices s.orders s os2 ex2 sfin heq
    have hcond : ∀ o2 ∈ os2, o2.status = OrderStatus.pending →
        prices o2.symbol = none ∨
        ∃ cp, prices o2.symbol = some cp ∧ shouldExecute o2 cp = some false := by
      intro o2 ho2 hp2
      obtain ⟨o, ho, hout⟩ := forall₂_right_mem hfa o2 ho2
      obtain ⟨g1, g2, g3⟩ := hout
      by_cases hst : o.status = OrderStatus.pending
      · cases hpr : prices o.symbol with
        | none =>
          have hoo := g2 hst hpr
          subst hoo
          exact Or.inl hpr
        | some cp =>
          obtain ⟨ha, hb2, hc⟩ := g3 cp hst hpr
          cases hse : shouldExecute o cp with
          | none => exact absurd hse ha
          | some b =>
            cases b with
            | false =>
              have hoo := hb2 hse
              subst hoo
              exact Or.inr ⟨cp, hpr, hse⟩
            | true =>
              rcases hc hse with ⟨heq2, _⟩ | ⟨hcanc, _, _⟩
              · rw [heq2] at hp2
                simp at hp2
              · rw [hcanc] at hp2
                simp at hp2
      · have hoo := g1 hst
        subst hoo
        exact absurd hp2 hst
    have hstable := processPendingAux_stable prices os2 { sfin with orders := os2 } hcond
    rw [process_pending_orders]
    rw [show ({ sfin with orders := os2 } : TradingSimulator).orders = os2 from rfl]
    rw [hstable]

/-- Witness for C7: a ledger holding one pending limit buy (limit 2000) under
a quote of 2500 is left untouched with an empty executed list; the theorem
applied to that first call shows the repeat call is also empty. -/
theorem process_pending_idempotent_witness :
    process_pending_orders
      { initial_balance := 10000, balance := 10000, positions := [],
        orders := [{ id := 1, symbol := "ETHUSDT", type := OrderType.limit,
                     side := OrderSide.buy, quantity := 1, price := some 2000,
                     stop_price := none, status := OrderStatus.pending,
                     executed_price := none, cancel_reason := none }],
        trades := [] }
      (fun sym => if sym = "ETHUSDT" then some 2500 else none) =
    Except.ok ([],
      { initial_balance := 10000, balance := 10000, positions := [],
        orders := [{ id := 1, symbol := "ETHUSDT", type := OrderType.limit,
                     side := OrderSide.buy, quantity := 1, price := some 2000,
                     stop_price := none, status := OrderStatus.pending,
                     executed_price := none, cancel_reason := none }],
        trades := [] }) :=
  process_pending_idempotent
    { initial_balance := 10000, balance := 10000, positions := [],
      orders := [{ id := 1, symbol := "ETHUSDT", type := OrderType.limit,
                   side := OrderSide.buy, quantity := 1, price := some 2000,
                   stop_price := none, status := OrderStatus.pending,
                   executed_price := none, cancel_reason := none }],
      trades := [] }
    (fun sym => if sym = "ETHUSDT" then some 2500 else none)
    []
    { initial_balance := 10000, balance := 10000, positions := [],
      orders := [{ id := 1, symbol := "ETHUSDT", type := OrderType.limit,
                   side := OrderSide.buy, quantity := 1, price := some 2000,
                   stop_price := none, status := OrderStatus.pending,
                   executed_price := none, cancel_reason := none }],
      trades := [] }
    rfl


/-! ### Invariant preservation -/


theorem executeOrder_preserves_posInv (s : TradingSimulator) (o : Order) (p : ℚ)
    (hq : 0 < o.quantity) (hp : 0 < p) (hinv : PosInv s) :
    PosInv (executeOrder s o p).state := by
  by_cases hsucc : (executeOrder s o p).success = true
  case neg =>
    have hfail := executeOrder_fail_frame s o p (by simpa using hsucc)
    rw [hfail.1]
    exact hinv
  case pos =>
    rcases (executeOrder_success_iff s o p).mp hsucc with ⟨hside, hb⟩ | ⟨hside, pos, hl, hql⟩
    · rw [executeOrder_buy_ok s o p hside hb]
      intro e he
      have he2 : e ∈ upsertPos s.positions o.symbol
          { quantity := ((lookupPos s.positions o.symbol).getD
              { quantity := 0, avg_price := 0, invested := 0 }).quantity + o.quantity
            avg_price := (((lookupPos s.positions o.symbol).getD
                { quantity := 0, avg_price := 0, invested := 0 }).invested + o.quantity * p) /
              (((lookupPos s.positions o.symbol).getD
                { quantity := 0, avg_price := 0, invested := 0 }).quantity + o.quantity)
            invested := ((lookupPos s.positions o.symbol).getD
                { quantity := 0, avg_price := 0, invested := 0 }).invested + o.quantity * p } := he
      have hbase : 0 ≤ ((lookupPos s.positions o.symbol).getD
            { quantity := 0, avg_price := 0, invested := 0 }).quantity ∧
          0 ≤ ((lookupPos s.positions o.symbol).getD
            { quantity := 0, avg_price := 0, invested := 0 }).invested := by
        cases hl : lookupPos s.positions o.symbol with
        | none => simp
        | some pos =>
          have h1 : 0 < pos.quantity := (hinv (o.symbol, pos) (lookupPos_mem hl)).2.1
          have h2 : 0 ≤ pos.invested := (hinv (o.symbol, pos) (lookupPos_mem hl)).2.2
          simp only [Option.getD_some]
          exact ⟨le_of_lt h1, h2⟩
      obtain ⟨hq0, hi0⟩ := hbase
      have hqpos : 0 < ((lookupPos s.positions o.symbol).getD
          { quantity := 0, avg_price := 0, invested := 0 }).quantity + o.quantity := by
        linarith
      rcases mem_upsertPos he2 with heq | hmem
      · subst heq
        refine ⟨?_, hqpos, ?_⟩
        · show ((lookupPos s.positions o.symbol).getD
              { quantity := 0, avg_price := 0, invested := 0 }).invested + o.quantity * p =
            (((lookupPos s.positions o.symbol).getD
                { quantity := 0, avg_price := 0, invested := 0 }).quantity + o.quantity) *
              ((((lookupPos s.positions o.symbol).getD
                  { quantity := 0, avg_price := 0, invested := 0 }).invested + o.quantity * p) /
                (((lookupPos s.positions o.symbol).getD
                  { quantity := 0, avg_price := 0, invested := 0 }).quantity + o.quantity))
          have hne : ((lookupPos s.positions o.symbol).getD
              { quantity := 0, avg_price := 0, invested := 0 }).quantity + o.quantity ≠ 0 :=
            ne_of_gt hqpos
          field_simp
        · show 0 ≤ ((lookupPos s.positions o.symbol).getD
              { quantity := 0, avg_price := 0, invested := 0 }).invested + o.quantity * p
          have := mul_pos hq hp
          linarith
      · exact hinv e hmem
    · rw [executeOrder_sell_ok s o p pos hside hl hql]
      intro e he
      have he2 : e ∈ (if pos.quantity - o.quantity = 0 then removePos s.positions o.symbol
          else upsertPos s.positions o.symbol
            { quantity := pos.quantity - o.quantity, avg_price := pos.avg_price,
              invested := pos.invested - o.quantity * pos.avg_price }) := he
      have hie : pos.invested = pos.quantity * pos.avg_price :=
        (hinv (o.symbol, pos) (lookupPos_mem hl)).1
      have hqp : 0 < pos.quantity := (hinv (o.symbol, pos) (lookupPos_mem hl)).2.1
      have hin : 0 ≤ pos.invested := (hinv (o.symbol, pos) (lookupPos_mem hl)).2.2
      have hle : o.quantity ≤ pos.quantity := not_lt.mp hql
      have havg : 0 ≤ pos.avg_price := by nlinarith
      by_cases h0 : pos.quantity - o.quantity = 0
      · rw [if_pos h0] at he2
        exact hinv e (mem_removePos he2)
      · rw [if_neg h0] at he2
        rcases mem_upsertPos he2 with heq | hmem
        · subst heq
          have hqpos2 : 0 < pos.quantity - o.quantity :=
            lt_of_le_of_ne (by linarith) (Ne.symm h0)
          refine ⟨?_, hqpos2, ?_⟩
          · show pos.invested - o.quantity * pos.avg_price =
              (pos.quantity - o.quantity) * pos.avg_price
            rw [hie]
            ring
          · show 0 ≤ pos.invested - o.quantity * pos.avg_price
            nlinarith
        · exact hinv e hmem



theorem processPendingAux_preserves_posInv (prices : String → Option ℚ)
    (hpr : ∀ sym x, prices sym = some x → 0 < x) :
    ∀ (os : List Order) (s : TradingSimulator) (os2 ex : List Order) (s2 : TradingSimulator),
      processPendingAux prices s os = Except.ok (os2, ex, s2) →
      PosInv s → (∀ o ∈ os, 0 < o.quantity) → PosInv s2 := by
  intro os
  induction os with
  | nil =>
    intro s os2 ex s2 h hinv hos
    simp only [processPendingAux, Except.ok.injEq, Prod.mk.injEq] at h
    obtain ⟨h1, h2, h3⟩ := h
    subst h3
    exact hinv
  | cons o rest ih =>
    intro s os2 ex s2 h hinv hos
    have hqo : 0 < o.quantity := hos o (List.mem_cons_self o rest)
    have hrest : ∀ o2 ∈ rest, 0 < o2.quantity :=
      fun o2 ho2 => hos o2 (List.mem_cons_of_mem o ho2)
    rw [processPendingAux] at h
    split at h
    case isTrue hst =>
      split at h
      case h_1 hprx =>
        split at h
        case h_1 e heq => exact absurd h (by simp)
        case h_2 ros rex rs heq =>
          simp only [Except.ok.injEq, Prod.mk.injEq] at h
          obtain ⟨h1, h2, h3⟩ := h
          subst h3
          exact ih s ros rex rs heq hinv hrest
      case h_2 cp hprx =>
        split at h
        case h_1 hse => exact absurd h (by simp)
        case h_2 hse =>
          split at h
          case h_1 e heq => exact absurd h (by simp)
          case h_2 ros rex rs heq =>
            simp only [Except.ok.injEq, Prod.mk.injEq] at h
            obtain ⟨h1, h2, h3⟩ := h
            subst h3
            exact ih s ros rex rs heq hinv hrest
        case h_3 hse =>
          have hinv2 : PosInv (executeOrder s o cp).state :=
            executeOrder_preserves_posInv s o cp hqo (hpr o.symbol cp hprx) hinv
          split at h
          case isTrue hsucc =>
            split at h
            case h_1 e heq => exact absurd h (by simp)
            case h_2 ros rex rs heq =>
              simp only [Except.ok.injEq, Prod.mk.injEq] at h
              obtain ⟨h1, h2, h3⟩ := h
              subst h3
              exact ih (executeOrder s o cp).state ros rex rs heq hinv2 hrest
          case isFalse hsucc =>
            split at h
            case h_1 e heq => exact absurd h (by simp)
            case h_2 ros rex rs heq =>
              simp only [Except.ok.injEq, Prod.mk.injEq] at h
              obtain ⟨h1, h2, h3⟩ := h
              subst h3
              exact ih (executeOrder s o cp).state ros rex rs heq hinv2 hrest
    case isFalse hst =>
      split at h
      case h_1 e heq => exact absurd h (by simp)
      case h_2 ros rex rs heq =>
        simp only [Except.ok.injEq, Prod.mk.injEq] at h
        obtain ⟨h1, h2, h3⟩ := h
        subst h3
        exact ih s ros rex rs heq hinv hrest

theorem cancelFirst_quantity :
    ∀ (os : List Order) (oid : Nat) (os2 : List Order),
      cancelFirst os oid = some os2 → ∀ o2 ∈ os2, ∃ o, o ∈ os ∧ o2.quantity = o.quantity := by
  intro os
  induction os with
  | nil =>
    intro oid os2 h
    simp [cancelFirst] at h
  | cons o rest ih =>
    intro oid os2 h
    rw [cancelFirst] at h
    split at h
    case isTrue hc =>
      simp only [Option.some.injEq] at h
      subst h
      intro o2 ho2
      rcases List.mem_cons.mp ho2 with rfl | hmem
      · exact ⟨o, List.mem_cons_self _ _, rfl⟩
      · exact ⟨o2, List.mem_cons_of_mem _ hmem, rfl⟩
    case isFalse hc =>
      split at h
      case h_1 heq => exact absurd h (by simp)
      case h_2 rest2 heq =>
        simp only [Option.some.injEq] at h
        subst h
        intro o2 ho2
        rcases List.mem_cons.mp ho2 with rfl | hmem
        · exact ⟨o2, List.mem_cons_self _ _, rfl⟩
        · obtain ⟨ox, hox, hq⟩ := ih oid rest2 heq o2 hmem
          exact ⟨ox, List.mem_cons_of_mem _ hox, hq⟩

theorem create_order_preserves_inv (s : TradingSimulator) (symbol : String)
    (ot : OrderType) (side : OrderSide) (q : ℚ) (price sp cp : Option ℚ)
    (s2 : TradingSimulator) (o : Order)
    (hq : 0 < q) (hcp : ∀ x, cp = some x → 0 < x)
    (h : create_order s symbol ot side q price sp cp = Except.ok (s2, o))
    (hinv : PosInv s) (hord : ∀ o2 ∈ s.orders, 0 < o2.quantity) :
    PosInv s2 ∧ ∀ o2 ∈ s2.orders, 0 < o2.quantity := by
  cases ot
  case market =>
    cases cp with
    | none => simp [create_order] at h
    | some v =>
      have hv : 0 < v := hcp v rfl
      by_cases hsucc :
        (executeOrder s (newOrder s symbol OrderType.market side q price sp) v).success = true
      · simp only [create_order, hsucc, if_true] at h
        rw [Except.ok.injEq, Prod.mk.injEq] at h
        obtain ⟨h1, h2⟩ := h
        subst h1
        constructor
        · intro e he
          exact executeOrder_preserves_posInv s
            (newOrder s symbol OrderType.market side q price sp) v hq hv hinv e he
        · intro o2 ho2
          have ho2b : o2 ∈ (executeOrder s
              (newOrder s symbol OrderType.market side q price sp) v).state.orders ++
              [(executeOrder s (newOrder s symbol OrderType.market side q price sp) v).order] :=
            ho2
          rw [(executeOrder_frame s (newOrder s symbol OrderType.market side q price sp) v).1]
            at ho2b
          rcases List.mem_append.mp ho2b with hmem | hmem
          · exact hord o2 hmem
          · have heq : o2 = (executeOrder s
                (newOrder s symbol OrderType.market side q price sp) v).order := by
              simpa using hmem
            subst heq
            rw [(executeOrder_frame s (newOrder s symbol OrderType.market side q price sp) v).2.2]
            exact hq
      · simp only [create_order, hsucc, if_false] at h
        rw [Except.ok.injEq, Prod.mk.injEq] at h
        obtain ⟨h1, h2⟩ := h
        subst h1
        have hframe := executeOrder_fail_frame s
          (newOrder s symbol OrderType.market side q price sp) v (by simpa using hsucc)
        constructor
        · intro e he
          have he2 : e ∈ (executeOrder s
              (newOrder s symbol OrderType.market side q price sp) v).state.positions := he
          rw [hframe.1] at he2
          exact hinv e he2
        · intro o2 ho2
          have ho2b : o2 ∈ (executeOrder s
              (newOrder s symbol OrderType.market side q price sp) v).state.orders ++
              [{ newOrder s symbol OrderType.market side q price sp with
                  status := OrderStatus.cancelled
                  cancel_reason := some (executeOrder s
                    (newOrder s symbol OrderType.market side q price sp) v).message }] := ho2
          rw [(executeOrder_frame s (newOrder s symbol OrderType.market side q price sp) v).1]
            at ho2b
          rcases List.mem_append.mp ho2b with hmem | hmem
          · exact hord o2 hmem
          · have heq : o2 = { newOrder s symbol OrderType.market side q price sp with
                status := OrderStatus.cancelled
                cancel_reason := some (executeOrder s
                  (newOrder s symbol OrderType.market side q price sp) v).message } := by
              simpa using hmem
            subst heq
            exact hq
  case limit =>
    simp only [create_order] at h
    rw [Except.ok.injEq, Prod.mk.injEq] at h
    obtain ⟨h1, h2⟩ := h
    subst h1
    refine ⟨fun e he => hinv e he, fun o2 ho2 => ?_⟩
    have ho2b : o2 ∈ s.orders ++ [newOrder s symbol OrderType.limit side q price sp] := ho2
    rcases List.mem_append.mp ho2b with hmem | hmem
    · exact hord o2 hmem
    · have heq : o2 = newOrder s symbol OrderType.limit side q price sp := by simpa using hmem
      subst heq
      exact hq
  case stop_loss =>
    simp only [create_order] at h
    rw [Except.ok.injEq, Prod.mk.injEq] at h
    obtain ⟨h1, h2⟩ := h
    subst h1
    refine ⟨fun e he => hinv e he, fun o2 ho2 => ?_⟩
    have ho2b : o2 ∈ s.orders ++ [newOrder s symbol OrderType.stop_loss side q price sp] := ho2
    rcases List.mem_append.mp ho2b with hmem | hmem
    · exact hord o2 hmem
    · have heq : o2 = newOrder s symbol OrderType.stop_loss side q price sp := by simpa using hmem
      subst heq
      exact hq
  case take_profit =>
    simp only [create_order] at h
    rw [Except.ok.injEq, Prod.mk.injEq] at h
    obtain ⟨h1, h2⟩ := h
    subst h1
    refine ⟨fun e he => hinv e he, fun o2 ho2 => ?_⟩
    have ho2b : o2 ∈ s.orders ++ [newOrder s symbol OrderType.take_profit side q price sp] := ho2
    rcases List.mem_append.mp ho2b with hmem | hmem
    · exact hord o2 hmem
    · have heq : o2 = newOrder s symbol OrderType.take_profit side q price sp := by
        simpa using hmem
      subst heq
      exact hq

theorem process_pending_preserves_inv (s : TradingSimulator) (prices : String → Option ℚ)
    (ex : List Order) (s2 : TradingSimulator)
    (hpr : ∀ sym x, prices sym = some x → 0 < x)
    (h : process_pending_orders s prices = Except.ok (ex, s2))
    (hinv : PosInv s) (hord : ∀ o2 ∈ s.orders, 0 < o2.quantity) :
    PosInv s2 ∧ ∀ o2 ∈ s2.orders, 0 < o2.quantity := by
  rw [process_pending_orders] at h
  split at h
  case h_1 e heq => exact absurd h (by simp)
  case h_2 os2 ex2 sfin heq =>
    simp only [Except.ok.injEq, Prod.mk.injEq] at h
    obtain ⟨h1, h2⟩ := h
    subst h1
    subst h2
    constructor
    · intro e he
      exact processPendingAux_preserves_posInv prices hpr s.orders s os2 ex2 sfin heq
        hinv hord e he
    · intro o2 ho2
      obtain ⟨o, ho, hout⟩ := forall₂_right_mem
        (processPendingAux_outcomes prices s.orders s os2 ex2 sfin heq).2.2 o2 ho2
      rw [orderOutcome_quantity hout]
      exact hord o ho

theorem reachable_inv (s : TradingSimulator) (hs : Reachable s) :
    PosInv s ∧ ∀ o ∈ s.orders, 0 < o.quantity := by
  induction hs with
  | init b =>
    exact ⟨fun e he => absurd he (List.not_mem_nil e),
      fun o ho => absurd ho (List.not_mem_nil o)⟩
  | create s symbol ot side q price sp cp s2 o hs hq hp hsp hcp h ih =>
    exact create_order_preserves_inv s symbol ot side q price sp cp s2 o hq hcp h ih.1 ih.2
  | process s prices ex s2 hs hpr h ih =>
    exact process_pending_preserves_inv s prices ex s2 hpr h ih.1 ih.2
  | cancel s oid hs ih =>
    rw [cancel_order]
    split
    case h_1 heq => exact ih
    case h_2 os heq =>
      refine ⟨fun e he => ih.1 e he, fun o2 ho2 => ?_⟩
      obtain ⟨o, ho, hqeq⟩ := cancelFirst_quantity s.orders oid os heq o2 ho2
      rw [hqeq]
      exact ih.2 o ho



/-! ### C9 and C10 -/

/-- C9: in every ledger state reachable from a fresh simulator through
`create_order`, `process_pending_orders` and `cancel_order` (exact arithmetic,
all supplied quantities and prices positive), every held position satisfies
`invested = quantity × avg_price` with `quantity > 0` and `invested ≥ 0`. -/
theorem reachable_cost_basis_invariant (s : TradingSimulator) (hs : Reachable s) :
    ∀ e ∈ s.positions, e.2.invested = e.2.quantity * e.2.avg_price ∧
      0 < e.2.quantity ∧ 0 ≤ e.2.invested :=
  (reachable_inv s hs).1

/-- Witness for C9: the invariant instantiated at the position created by
Scenario 1 (Market Buy of 0.1 at 40000 from a fresh ledger of 10000), whose
reachability is established explicitly. -/
theorem reachable_cost_basis_invariant_witness :
    (Position.mk (1/10) 40000 4000).invested =
      (Position.mk (1/10) 40000 4000).quantity * (Position.mk (1/10) 40000 4000).avg_price ∧
    0 < (Position.mk (1/10) 40000 4000).quantity ∧
    0 ≤ (Position.mk (1/10) 40000 4000).invested := by
  have hcreate :
      create_order (initSimulator 10000) "BTCUSDT" OrderType.market OrderSide.buy
        (1/10) none none (some 40000) =
      Except.ok
        (TradingSimulator.mk 10000 6000
          [("BTCUSDT", Position.mk (1/10) 40000 4000)]
          [{ id := 1, symbol := "BTCUSDT", type := OrderType.market, side := OrderSide.buy,
             quantity := 1/10, price := none, stop_price := none,
             status := OrderStatus.executed, executed_price := some 40000,
             cancel_reason := none }] [],
         { id := 1, symbol := "BTCUSDT", type := OrderType.market, side := OrderSide.buy,
           quantity := 1/10, price := none, stop_price := none,
           status := OrderStatus.executed, executed_price := some 40000,
           cancel_reason := none }) := by
    norm_num [create_order, executeOrder, newOrder, lookupPos, upsertPos, initSimulator]
  have hreach := Reachable.create (initSimulator 10000) "BTCUSDT" OrderType.market
    OrderSide.buy (1/10) none none (some 40000)
    (TradingSimulator.mk 10000 6000
      [("BTCUSDT", Position.mk (1/10) 40000 4000)]
      [{ id := 1, symbol := "BTCUSDT", type := OrderType.market, side := OrderSide.buy,
         quantity := 1/10, price := none, stop_price := none,
         status := OrderStatus.executed, executed_price := some 40000,
         cancel_reason := none }] [])
    { id := 1, symbol := "BTCUSDT", type := OrderType.market, side := OrderSide.buy,
      quantity := 1/10, price := none, stop_price := none,
      status := OrderStatus.executed, executed_price := some 40000,
      cancel_reason := none }
    (Reachable.init 10000) (by norm_num)
    (fun x hx => by simp at hx)
    (fun x hx => by simp at hx)
    (fun x hx => by injection hx with hx; rw [← hx]; norm_num)
    hcreate
  exact reachable_cost_basis_invariant _ hreach
    ("BTCUSDT", Position.mk (1/10) 40000 4000) (List.mem_cons_self _ _)

/-- C10: in every reachable ledger state, the denominator `total_quantity` of
the average-price division in a Buy execution is strictly positive whenever
the order quantity is positive; the hypothesis is necessary, since a Buy of
quantity 0 on a symbol without a position makes the denominator 0.  The third
conjunct ties `buyDenominator` to the actual division performed by the Buy
branch. -/
theorem buy_denominator_positive (s : TradingSimulator) (o : Order) (p : ℚ)
    (hs : Reachable s) :
    (0 < o.quantity → 0 < buyDenominator s o) ∧
    (lookupPos s.positions o.symbol = none → o.quantity = 0 → buyDenominator s o = 0) ∧
    (o.side = OrderSide.buy → ¬ s.balance < o.quantity * p →
      (executeOrder s o p).state.positions = upsertPos s.positions o.symbol
        { quantity := buyDenominator s o
          avg_price := ((currentPosition s o.symbol).invested + o.quantity * p) /
            buyDenominator s o
          invested := (currentPosition s o.symbol).invested + o.quantity * p }) := by
  refine ⟨?_, ?_, ?_⟩
  · intro hq
    have hqnn : 0 ≤ (currentPosition s o.symbol).quantity := by
      rw [currentPosition]
      cases hl : lookupPos s.positions o.symbol with
      | none => simp
      | some pos =>
        simp only [Option.getD_some]
        exact le_of_lt ((reachable_inv s hs).1 (o.symbol, pos) (lookupPos_mem hl)).2.1
    rw [buyDenominator]
    linarith
  · intro hl hq0
    rw [buyDenominator, currentPosition, hl, hq0]
    simp
  · intro hside hb
    rw [executeOrder_buy_ok s o p hside hb]
    rfl

/-- Witness for C10: a Buy of quantity 1 on a fresh ledger has denominator
0 + 1 > 0. -/
theorem buy_denominator_positive_witness :
    0 < buyDenominator (initSimulator 10000)
      { id := 1, symbol := "BTCUSDT", type := OrderType.market, side := OrderSide.buy,
        quantity := 1, price := none, stop_price := none, status := OrderStatus.pending,
        executed_price := none, cancel_reason := none } :=
  (buy_denominator_positive (initSimulator 10000)
    { id := 1, symbol := "BTCUSDT", type := OrderType.market, side := OrderSide.buy,
      quantity := 1, price := none, stop_price := none, status := OrderStatus.pending,
      executed_price := none, cancel_reason := none }
    0 (Reachable.init 10000)).1 (by norm_num)


end Binance
